import Mathlib

/- Verification of the gobinaries build/storage core: a shallow embedding of
   src/build/build.go and src/storage/local.go, followed by theorems about the
   embedded definitions. Strings are manipulated through their character lists
   so that the Go standard-library helpers (strings.Split, strings.Replace,
   path/filepath.Clean, path/filepath.Join) can be modelled exactly. -/

namespace Gobin

/- Model of strings.Split for a one-character separator: splits at every
   occurrence of the separator, keeping empty fields, and yields at least one
   field (Split("", sep) = [""]). -/
def splitOnChar (sep : Char) : List Char → List (List Char)
  | [] => [[]]
  | c :: rest =>
    let r := splitOnChar sep rest
    if c = sep then [] :: r else (c :: r.headD []) :: r.tail

/- Join a list of fields with a one-character separator (inverse direction of
   splitOnChar; used to model the component join inside filepath.Clean). -/
def joinSep (sep : Char) : List (List Char) → List Char
  | [] => []
  | [x] => x
  | x :: y :: xs => x ++ sep :: joinSep sep (y :: xs)

/- Model of strings.Replace(s, "/", "-", -1): every slash becomes a dash. -/
def replaceSlash (s : List Char) : List Char :=
  s.map fun c => if c = '/' then '-' else c

/- Component processing of path/filepath.Clean: drop empty and "." components,
   resolve ".." against the accumulated stack (a rooted path drops ".." at the
   top, a relative path keeps leading ".." components). -/
def cleanFold (rooted : Bool) : List (List Char) → List (List Char) → List (List Char)
  | acc, [] => acc.reverse
  | acc, c :: rest =>
    if c = [] ∨ c = ['.'] then cleanFold rooted acc rest
    else if c = ['.', '.'] then
      match acc with
      | [] => if rooted then cleanFold rooted [] rest else cleanFold rooted [['.', '.']] rest
      | top :: acc2 =>
        if top = ['.', '.'] then cleanFold rooted (c :: top :: acc2) rest
        else cleanFold rooted acc2 rest
    else cleanFold rooted (c :: acc) rest

/- Model of path/filepath.Clean (slash separators): returns "." for the empty
   path, otherwise normalizes the components and restores the leading slash of
   a rooted path. -/
def pathClean (p : List Char) : List Char :=
  match p with
  | [] => ['.']
  | c :: _ =>
    let rooted := c == '/'
    let body := joinSep '/' (cleanFold rooted [] (splitOnChar '/' p))
    if rooted then '/' :: body
    else if body.isEmpty then ['.'] else body

/- Model of path/filepath.Join: the non-empty elements are joined with a slash
   and the result is cleaned; all-empty input yields the empty path. Filtering
   the empty elements before the join gives the same result as Go's joining
   from the first non-empty element, because Clean drops empty components. -/
def goJoinChars (elems : List (List Char)) : List Char :=
  match elems.filter (fun s => !s.isEmpty) with
  | [] => []
  | ne => pathClean (joinSep '/' ne)

def goJoinStr (elems : List String) : String :=
  String.mk (goJoinChars (elems.map String.data))

/- Modelled from the spec: the root-package Binary type (BuildTarget) is not
   under src/; the spec's data model gives it five string fields — module path,
   resolved version, target OS, target architecture, and the CGO
   flag. The storage code reads the module path under the field name Path;
   here the single Module field plays both roles. -/
structure Binary where
  Module : String
  Version : String
  OS : String
  Arch : String
  CGO : String
  deriving DecidableEq

/- ---------- src/build/build.go ---------- -/

/- environWhitelist, build.go lines 31-38: the ambient environment variables
   forwarded to Go sub-commands. -/
def environWhitelist : List String :=
  ["PATH", "HOME", "PWD", "GOPATH", "GOLANG_VERSION", "TMPDIR"]

/- A Go map[string]string with its zero-value lookup: a missing key reads as
   the empty string. -/
def updateMap (m : String → String) (k v : String) : String → String :=
  fun x => if x = k then v else m x

/- The name part of an os.Environ entry, as parsed by the init loop in
   build.go lines 22-28: parts := strings.Split(v, "="); parts[0]. -/
def envEntryName (v : String) : String :=
  String.mk ((splitOnChar '=' v.data).headD [])

/- The value part of the same parse: parts[1] (the text between the first and
   the second "=", so a value containing "=" is truncated). -/
def envEntryValue (v : String) : String :=
  String.mk (((splitOnChar '=' v.data).drop 1).headD [])

/- The init loop of build.go: environMap is built by inserting every entry of
   os.Environ() in order, a later entry overwriting an earlier one. -/
def initEnvironMap (vars : List String) : String → String :=
  vars.foldl (fun m v => updateMap m (envEntryName v) (envEntryValue v)) (fun _ => "")

/- environ(), build.go lines 208-214: one NAME=value entry per whitelisted
   name, in whitelist order, read from environMap. -/
def environ (m : String → String) : List String :=
  environWhitelist.map fun name => name ++ "=" ++ m name

/- strings.TrimPrefix. -/
def trimPre (s pre : String) : String :=
  if pre.isPrefixOf s then s.drop pre.length else s

/- The -ldflags value built in install(), build.go line 135. -/
def installLdflags (bin : Binary) : String :=
  "-s -w -X main.version=" ++ bin.Version

/- The argument list of the go command spawned by install(), build.go line
   136 (after the program name "go"): the module argument is always the bare
   module path with the /... wildcard and the version pin. -/
def installArgs (bin : Binary) : List String :=
  ["install", "-trimpath", "-ldflags", installLdflags bin,
   bin.Module ++ "/...@" ++ bin.Version]

/- The environment of the spawned go command, build.go lines 137-146: the
   whitelisted ambient variables, then GOPATH pointing at the build directory,
   CGO_ENABLED, GOOS, and either GOARCH directly or, for an "armv" profile
   architecture, GOARCH=arm together with GOARM carrying the profile number. -/
def installEnv (bin : Binary) (dir : String) (m : String → String) : List String :=
  let env := environ m
  let env := env ++ ["GOPATH=" ++ dir]
  let env := env ++ ["CGO_ENABLED=" ++ bin.CGO]
  let env := env ++ ["GOOS=" ++ bin.OS]
  if bin.Arch.startsWith "armv" then
    (env ++ ["GOARCH=arm"]) ++ ["GOARM=" ++ trimPre bin.Arch "armv"]
  else
    env ++ ["GOARCH=" ++ bin.Arch]

/- strconv.Atoi on a digit string (the sign handling of the Go function; the
   64-bit overflow bound is outside the modelled range). -/
def parseDigits (cs : List Char) : Option Nat :=
  if cs = [] then none
  else if cs.all (fun c => c.isDigit) then
    some (cs.foldl (fun n c => n * 10 + (c.toNat - 48)) 0)
  else none

def goAtoi (cs : List Char) : Option Int :=
  match cs with
  | '-' :: rest => (parseDigits rest).map fun n => -(n : Int)
  | '+' :: rest => (parseDigits rest).map fun n => (n : Int)
  | _ => (parseDigits cs).map fun n => (n : Int)

/- getMajorVersion, build.go lines 152-158: the first dot-separated field of
   the tag with its leading character stripped, parsed as an integer. -/
def getMajorVersion (tag : String) : Option Int :=
  let major := (splitOnChar '.' tag.data).headD []
  if major.length < 1 then none
  else goAtoi (major.drop 1)

/- normalizeModuleDep, build.go lines 161-172: a /v<major> suffix is inserted
   before the version pin when the major version parses and exceeds 1. -/
def normalizeModuleDep (bin : Binary) : String :=
  match getMajorVersion bin.Version with
  | some major =>
    if major > 1 then
      bin.Module ++ "/v" ++ toString major ++ "@" ++ bin.Version
    else
      bin.Module ++ "@" ++ bin.Version
  | none => bin.Module ++ "@" ++ bin.Version

/- isExecutable, build.go lines 119-121: all three of the owner, group and
   other execute bits must be set. -/
def isExecutable (perm : Nat) : Bool :=
  Nat.land perm 0o111 == 0o111

/- The walk-callback test of build.go line 71: at least one execute bit. -/
def hasExecBit (perm : Nat) : Bool :=
  Nat.land perm 0o111 != 0

/- One visit of the filepath.Walk traversal in Write: the visited path, the
   stat information used by the callback (directory flag and permission bits),
   the file's bytes, and whether the walk delivers an error for this visit. -/
structure WalkEntry where
  path : String
  isDir : Bool
  perm : Nat
  content : List UInt8
  fail : Bool
  deriving DecidableEq

/- The dst accumulation of Write, build.go lines 66-75: every visited
   non-directory file with at least one execute bit overwrites dst, and an
   error visit aborts the walk (Write only prints the walk error, so the dst
   accumulated so far is used). -/
def walkDst : List WalkEntry → String → String
  | [], dst => dst
  | e :: rest, dst =>
    if e.fail then dst
    else if !e.isDir && hasExecBit e.perm then walkDst rest e.path
    else walkDst rest dst

/- The ambient state and injected failures of one Write attempt: the home
   directory, whether os.UserHomeDir fails, whether the install sub-command
   fails, the walk visits, and whether the stat, copy, close and RemoveAll
   steps fail. -/
structure WriteWorld where
  homeErr : Bool
  homeDir : String
  installErr : Bool
  entries : List WalkEntry
  statErr : Bool
  copyErr : Bool
  closeErr : Bool
  removeErr : Bool
  deriving DecidableEq

/- The error cases of Write, in source order: "user home dir", "tidy module"
   (the wrapping of an install failure), "opening", "stating",
   ErrNotExecutable, "copying", "closing", "cleaning", or success. -/
inductive WriteOutcome where
  | homeDirErr
  | tidyModuleErr
  | openingErr
  | statingErr
  | notExecutable
  | copyingErr
  | closingErr
  | cleaningErr
  | ok
  deriving DecidableEq

/- The observable effect of one Write attempt: its outcome, the bytes copied
   to the writer, whether os.RemoveAll was invoked on the workspace, and the
   workspace directory itself. -/
structure WriteResult where
  outcome : WriteOutcome
  written : List UInt8
  removed : Bool
  dir : String
  deriving DecidableEq

/- The workspace directory of Write, build.go lines 56-57:
   filepath.Join(os.UserHomeDir(), ".cache", "gobinaries", bin.Module). -/
def writeDir (homeDir : String) (bin : Binary) : String :=
  goJoinStr [homeDir, ".cache", "gobinaries", bin.Module]

/- os.Open(dst) resolves dst against the files seen by the walk; dst = ""
   (no executable found) matches no visited path and the open fails. -/
def findEntry (es : List WalkEntry) (p : String) : Option WalkEntry :=
  es.find? fun e => e.path = p

/- Write, build.go lines 55-110, step by step: home directory, install, walk
   for dst, open, stat, three-way executable check, copy, close, and only then
   os.RemoveAll(dir). Every failure returns at once, so RemoveAll is reached
   only after a successful close. -/
def write (wld : WriteWorld) (bin : Binary) : WriteResult :=
  let dir := writeDir wld.homeDir bin
  if wld.homeErr then ⟨.homeDirErr, [], false, dir⟩
  else if wld.installErr then ⟨.tidyModuleErr, [], false, dir⟩
  else
    let dst := walkDst wld.entries ""
    match findEntry wld.entries dst with
    | none => ⟨.openingErr, [], false, dir⟩
    | some e =>
      if wld.statErr then ⟨.statingErr, [], false, dir⟩
      else if !isExecutable e.perm then ⟨.notExecutable, [], false, dir⟩
      else if wld.copyErr then ⟨.copyingErr, [], false, dir⟩
      else if wld.closeErr then ⟨.closingErr, e.content, false, dir⟩
      else if wld.removeErr then ⟨.cleaningErr, e.content, true, dir⟩
      else ⟨.ok, e.content, true, dir⟩

/- ---------- src/storage/local.go ---------- -/

/- Local, local.go lines 19-25: the filesystem store with its root directory
   and optional object key Prefix (field Pre here). -/
structure Local where
  Root : String
  Pre : String
  deriving DecidableEq

/- getKey, local.go lines 69-73: dir is the Prefix, a slash, and the module
   path with every slash replaced by a dash; file is version-os-arch-cgo; the
   two are combined with filepath.Join. -/
def getKeyChars (l : Local) (bin : Binary) : List Char :=
  let dir := l.Pre.data ++ '/' :: replaceSlash bin.Module.data
  let file := bin.Version.data
      ++ '-' :: (bin.OS.data ++ '-' :: (bin.Arch.data ++ '-' :: bin.CGO.data))
  goJoinChars [dir, file]

def getKey (l : Local) (bin : Binary) : String :=
  String.mk (getKeyChars l bin)

/- The full object path used by Create and Get: filepath.Join(l.Root, key). -/
def objectPath (l : Local) (bin : Binary) : String :=
  String.mk (goJoinChars [l.Root.data, getKeyChars l bin])

/- The modelled filesystem: an association from paths to file contents, the
   most recent binding for a path shadowing older ones (os.Create truncates
   and overwrites). -/
def FS := List (String × List UInt8)

instance : DecidableEq FS := by
  unfold FS
  infer_instance

def fsLookup : FS → String → Option (List UInt8)
  | [], _ => none
  | (q, b) :: rest, p => if q = p then some b else fsLookup rest p

def fsInsert (fs : FS) (p : String) (b : List UInt8) : FS :=
  (p, b) :: fs

/- Local.Create, local.go lines 28-50, final state: after MkdirAll, os.Create
   and a completed io.Copy the bytes sit under the object path. -/
def localCreate (l : Local) (fs : FS) (bin : Binary) (bytes : List UInt8) : FS :=
  fsInsert fs (objectPath l bin) bytes

/- The filesystem as it stands in the middle of Local.Create, when the first
   i chunks handed to io.Copy have been written: os.Create has already placed
   the (so far partial) file at its final path — there is no temporary
   location in the source. -/
def createMidState (l : Local) (fs : FS) (bin : Binary)
    (chunks : List (List UInt8)) (i : Nat) : FS :=
  fsInsert fs (objectPath l bin) (chunks.take i).flatten

/- Every filesystem state passed through by one Local.Create call, from the
   empty file made by os.Create (i = 0) to the completed copy (i = length). -/
def createStates (l : Local) (fs : FS) (bin : Binary)
    (chunks : List (List UInt8)) : List FS :=
  (List.range (chunks.length + 1)).map (createMidState l fs bin chunks)

/- A sequence of completed Create calls starting from the empty store. -/
def createAll (l : Local) (history : List (Binary × List UInt8)) : FS :=
  history.foldl (fun fs hb => localCreate l fs hb.1 hb.2) []

/- The outcome of Local.Get, local.go lines 53-66: the stored stream, or the
   distinguished ErrObjectNotFound when no file exists at the object path. -/
inductive GetResult where
  | notFound
  | found (bytes : List UInt8)
  deriving DecidableEq

def localGet (l : Local) (fs : FS) (bin : Binary) : GetResult :=
  match fsLookup fs (objectPath l bin) with
  | none => .notFound
  | some b => .found b

theorem splitOnChar_of_not_mem {sep : Char} :
    ∀ {a : List Char}, sep ∉ a → splitOnChar sep a = [a] := by
  intro a
  induction a with
  | nil => intro _; rfl
  | cons x a' ih =>
    intro h
    have hx : x ≠ sep := fun he => h (he ▸ List.mem_cons_self x a')
    have ha' : sep ∉ a' := fun hm => h (List.mem_cons_of_mem x hm)
    simp [splitOnChar, hx, ih ha']

theorem splitOnChar_append {sep : Char} :
    ∀ {a : List Char} (b : List Char), sep ∉ a →
      splitOnChar sep (a ++ sep :: b) = a :: splitOnChar sep b := by
  intro a
  induction a with
  | nil => intro b _; simp [splitOnChar]
  | cons x a' ih =>
    intro b h
    have hx : x ≠ sep := fun he => h (he ▸ List.mem_cons_self x a')
    have ha' : sep ∉ a' := fun hm => h (List.mem_cons_of_mem x hm)
    simp [splitOnChar, hx, ih b ha']

def plainComp (c : List Char) : Prop :=
  c ≠ [] ∧ c ≠ ['.'] ∧ c ≠ ['.', '.']

instance (c : List Char) : Decidable (plainComp c) := by
  unfold plainComp
  infer_instance

theorem cleanFold_plain {rooted : Bool} :
    ∀ {cs : List (List Char)}, (∀ c ∈ cs, plainComp c) →
      ∀ acc, cleanFold rooted acc cs = acc.reverse ++ cs := by
  intro cs
  induction cs with
  | nil => intro _ acc; simp [cleanFold]
  | cons c rest ih =>
    intro h acc
    obtain ⟨h1, h2, h3⟩ := h c (List.mem_cons_self c rest)
    have hrest : ∀ x ∈ rest, plainComp x := fun x hx => h x (List.mem_cons_of_mem c hx)
    have hc : ¬(c = [] ∨ c = ['.']) := by
      rintro (hh | hh)
      · exact h1 hh
      · exact h2 hh
    simp only [cleanFold, if_neg hc, if_neg h3]
    rw [ih hrest (c :: acc)]
    simp

theorem pathClean_three {a b c : List Char}
    (hsa : '/' ∉ a) (hsb : '/' ∉ b) (hsc : '/' ∉ c)
    (hpa : plainComp a) (hpb : plainComp b) (hpc : plainComp c) :
    pathClean (a ++ '/' :: (b ++ '/' :: c)) = a ++ '/' :: (b ++ '/' :: c) := by
  obtain ⟨x, a', rfl⟩ := List.exists_cons_of_ne_nil hpa.1
  have hx : x ≠ '/' := fun hh => hsa (hh ▸ List.mem_cons_self x a')
  have hsplit : splitOnChar '/' ((x :: a') ++ '/' :: (b ++ '/' :: c))
      = [x :: a', b, c] := by
    rw [splitOnChar_append (b ++ '/' :: c) hsa, splitOnChar_append c hsb,
      splitOnChar_of_not_mem hsc]
  have hplain : ∀ u ∈ [x :: a', b, c], plainComp u := by
    intro u hu
    simp only [List.mem_cons, List.not_mem_nil, or_false] at hu
    rcases hu with rfl | rfl | rfl
    · exact hpa
    · exact hpb
    · exact hpc
  have hxs : (x == '/') = false := by simp [hx]
  simp only [pathClean, List.cons_append, hsplit]
  rw [List.cons_append] at hsplit
  simp only [hsplit, hxs]
  rw [cleanFold_plain hplain []]
  simp [joinSep, List.isEmpty]

theorem goJoinChars_pair {a b : List Char} (ha : a ≠ []) (hb : b ≠ []) :
    goJoinChars [a, b] = pathClean (a ++ '/' :: b) := by
  have ha' : (!a.isEmpty) = true := by simp [List.isEmpty_eq_false.mpr ha]
  have hb' : (!b.isEmpty) = true := by simp [List.isEmpty_eq_false.mpr hb]
  simp only [goJoinChars, List.filter, ha', hb']
  simp [joinSep]

theorem append_sep_inj {sep : Char} :
    ∀ {a c : List Char} {b d : List Char}, sep ∉ a → sep ∉ c →
      a ++ sep :: b = c ++ sep :: d → a = c ∧ b = d := by
  intro a
  induction a with
  | nil =>
    intro c b d _ hc he
    cases c with
    | nil => simpa using he
    | cons y c' =>
      simp only [List.nil_append, List.cons_append, List.cons.injEq] at he
      exact absurd (he.1 ▸ List.mem_cons_self y c') hc
  | cons x a' ih =>
    intro c b d ha hc he
    cases c with
    | nil =>
      simp only [List.cons_append, List.nil_append, List.cons.injEq] at he
      have : sep ∈ x :: a' := he.1.symm ▸ List.mem_cons_self x a'
      exact absurd this ha
    | cons y c' =>
      simp only [List.cons_append, List.cons.injEq] at he
      have ha' : sep ∉ a' := fun hm => ha (List.mem_cons_of_mem x hm)
      have hc' : sep ∉ c' := fun hm => hc (List.mem_cons_of_mem y hm)
      obtain ⟨h1, h2⟩ := ih ha' hc' he.2
      exact ⟨by rw [he.1, h1], h2⟩

theorem replaceSlash_not_mem_slash (m : List Char) : '/' ∉ replaceSlash m := by
  intro hm
  simp only [replaceSlash, List.mem_map] at hm
  obtain ⟨c, _, hc⟩ := hm
  by_cases h : c = '/'
  · simp [h] at hc
  · rw [if_neg h] at hc
    exact h hc

theorem replaceSlash_inj :
    ∀ {m1 m2 : List Char}, '-' ∉ m1 → '-' ∉ m2 →
      replaceSlash m1 = replaceSlash m2 → m1 = m2 := by
  intro m1
  induction m1 with
  | nil =>
    intro m2 _ _ he
    cases m2 with
    | nil => rfl
    | cons y m2' => simp [replaceSlash] at he
  | cons x m1' ih =>
    intro m2 h1 h2 he
    cases m2 with
    | nil => simp [replaceSlash] at he
    | cons y m2' =>
      simp only [replaceSlash, List.map_cons, List.cons.injEq] at he
      have h1' : '-' ∉ m1' := fun hm => h1 (List.mem_cons_of_mem x hm)
      have h2' : '-' ∉ m2' := fun hm => h2 (List.mem_cons_of_mem y hm)
      have hx : x ≠ '-' := fun hh => h1 (hh ▸ List.mem_cons_self x m1')
      have hy : y ≠ '-' := fun hh => h2 (hh ▸ List.mem_cons_self y m2')
      have hmap : replaceSlash m1' = replaceSlash m2' := he.2
      have hxy : x = y := by
        have hif := he.1
        by_cases hxs : x = '/' <;> by_cases hys : y = '/'
        · rw [hxs, hys]
        · rw [if_pos hxs, if_neg hys] at hif
          exact absurd hif.symm hy
        · rw [if_neg hxs, if_pos hys] at hif
          exact absurd hif hx
        · rwa [if_neg hxs, if_neg hys] at hif
      rw [hxy, ih h1' h2' hmap]

theorem replaceSlash_ne_nil {m : List Char} (h : m ≠ []) : replaceSlash m ≠ [] := by
  cases m with
  | nil => exact absurd rfl h
  | cons x m' => simp [replaceSlash]

theorem replaceSlash_plain {m : List Char}
    (h0 : m ≠ []) (h1 : m ≠ ['.']) (h2 : m ≠ ['.', '.']) :
    plainComp (replaceSlash m) := by
  refine ⟨replaceSlash_ne_nil h0, ?_, ?_⟩
  · intro hh
    apply h1
    cases m with
    | nil => simp [replaceSlash] at hh
    | cons x m' =>
      cases m' with
      | nil =>
        simp only [replaceSlash, List.map_cons, List.map_nil, List.cons.injEq] at hh
        by_cases hx : x = '/'
        · rw [if_pos hx] at hh; exact absurd hh.1 (by decide)
        · rw [if_neg hx] at hh; rw [hh.1]
      | cons y m'' => simp [replaceSlash] at hh
  · intro hh
    apply h2
    cases m with
    | nil => simp [replaceSlash] at hh
    | cons x m' =>
      cases m' with
      | nil => simp [replaceSlash] at hh
      | cons y m'' =>
        cases m'' with
        | nil =>
          simp only [replaceSlash, List.map_cons, List.map_nil, List.cons.injEq] at hh
          by_cases hx : x = '/'
          · rw [if_pos hx] at hh; exact absurd hh.1 (by decide)
          · by_cases hy : y = '/'
            · rw [if_pos hy] at hh; exact absurd hh.2.1 (by decide)
            · rw [if_neg hx, if_neg hy] at hh; rw [hh.1, hh.2.1]
        | cons z m3 => simp [replaceSlash] at hh

theorem walkDst_eq_getLastD :
    ∀ {entries : List WalkEntry}, (∀ e ∈ entries, e.fail = false) →
      ∀ d, walkDst entries d
        = (((entries.filter fun e => !e.isDir && hasExecBit e.perm).map WalkEntry.path).getLastD d) := by
  intro entries
  induction entries with
  | nil => intro _ d; rfl
  | cons e rest ih =>
    intro h d
    have hf : e.fail = false := h e (List.mem_cons_self e rest)
    have hrest : ∀ x ∈ rest, x.fail = false := fun x hx => h x (List.mem_cons_of_mem e hx)
    by_cases hsel : (!e.isDir && hasExecBit e.perm) = true
    · rw [show walkDst (e :: rest) d = walkDst rest e.path from by
        rw [walkDst]; rw [if_neg (by simp [hf]), if_pos hsel]]
      have hfe : List.filter (fun x => !x.isDir && hasExecBit x.perm) (e :: rest)
          = e :: List.filter (fun x => !x.isDir && hasExecBit x.perm) rest := by
        simp [List.filter_cons, hsel]
      rw [hfe, List.map_cons, List.getLastD_cons]
      exact ih hrest e.path
    · have hsel' : (!e.isDir && hasExecBit e.perm) = false := by
        revert hsel; cases (!e.isDir && hasExecBit e.perm) <;> simp
      rw [show walkDst (e :: rest) d = walkDst rest d from by
        rw [walkDst]; rw [if_neg (by simp [hf]), if_neg (by simp [hsel'])]]
      have hfe : List.filter (fun x => !x.isDir && hasExecBit x.perm) (e :: rest)
          = List.filter (fun x => !x.isDir && hasExecBit x.perm) rest := by
        simp [List.filter_cons, hsel']
      rw [hfe]
      exact ih hrest d

theorem fsLookup_fsInsert (fs : FS) (p : String) (b : List UInt8) :
    fsLookup (fsInsert fs p b) p = some b := by
  simp [fsInsert, fsLookup]

theorem fsLookup_fsInsert_ne (fs : FS) {p q : String} (h : q ≠ p) (b : List UInt8) :
    fsLookup (fsInsert fs q b) p = fsLookup fs p := by
  simp [fsInsert, fsLookup, h]

theorem lookup_createAll_none (l : Local) (bin : Binary) :
    ∀ (history : List (Binary × List UInt8)) (fs : FS),
      fsLookup fs (objectPath l bin) = none →
      (∀ p ∈ history, objectPath l p.1 ≠ objectPath l bin) →
      fsLookup (history.foldl (fun acc hb => localCreate l acc hb.1 hb.2) fs)
        (objectPath l bin) = none := by
  intro history
  induction history with
  | nil => intro fs h _; simpa using h
  | cons hb rest ih =>
    intro fs h hall
    have hne : objectPath l hb.1 ≠ objectPath l bin := hall hb (List.mem_cons_self hb rest)
    have h' : fsLookup (localCreate l fs hb.1 hb.2) (objectPath l bin) = none := by
      rw [localCreate, fsLookup_fsInsert_ne fs hne hb.2]
      exact h
    simpa [List.foldl_cons] using
      ih (localCreate l fs hb.1 hb.2) h' (fun p hp => hall p (List.mem_cons_of_mem hb hp))

theorem createMidState_mem_createStates (l : Local) (fs : FS) (bin : Binary)
    (chunks : List (List UInt8)) {i : Nat} (h : i ≤ chunks.length) :
    createMidState l fs bin chunks i ∈ createStates l fs bin chunks :=
  List.mem_map_of_mem _ (List.mem_range.mpr (Nat.lt_succ_of_le h))

theorem write_dir_eq (wld : WriteWorld) (bin : Binary) :
    (write wld bin).dir = writeDir wld.homeDir bin := by
  unfold write
  by_cases h1 : wld.homeErr
  · simp [h1]
  · by_cases h2 : wld.installErr
    · simp [h1, h2]
    · simp only [h1, h2]
      rcases findEntry wld.entries (walkDst wld.entries "") with _ | e
      · simp
      · by_cases h3 : wld.statErr <;> by_cases h4 : isExecutable e.perm <;>
          by_cases h5 : wld.copyErr <;> by_cases h6 : wld.closeErr <;>
          by_cases h7 : wld.removeErr <;> simp [h3, h4, h5, h6, h7]

theorem file_fields_inj {v1 o1 a1 c1 v2 o2 a2 c2 : List Char}
    (ho1 : '-' ∉ o1) (ha1 : '-' ∉ a1) (hc1 : '-' ∉ c1)
    (ho2 : '-' ∉ o2) (ha2 : '-' ∉ a2) (hc2 : '-' ∉ c2)
    (he : v1 ++ '-' :: (o1 ++ '-' :: (a1 ++ '-' :: c1))
        = v2 ++ '-' :: (o2 ++ '-' :: (a2 ++ '-' :: c2))) :
    v1 = v2 ∧ o1 = o2 ∧ a1 = a2 ∧ c1 = c2 := by
  have hrev := congrArg List.reverse he
  simp only [List.reverse_append, List.reverse_cons, List.append_assoc,
    List.singleton_append] at hrev
  have hc1' : '-' ∉ c1.reverse := by simpa using hc1
  have hc2' : '-' ∉ c2.reverse := by simpa using hc2
  have ha1' : '-' ∉ a1.reverse := by simpa using ha1
  have ha2' : '-' ∉ a2.reverse := by simpa using ha2
  have ho1' : '-' ∉ o1.reverse := by simpa using ho1
  have ho2' : '-' ∉ o2.reverse := by simpa using ho2
  obtain ⟨hcq, hrest1⟩ := append_sep_inj hc1' hc2' hrev
  obtain ⟨haq, hrest2⟩ := append_sep_inj ha1' ha2' hrest1
  obtain ⟨hoq, hvq⟩ := append_sep_inj ho1' ho2' hrest2
  refine ⟨?_, ?_, ?_, ?_⟩
  · have := congrArg List.reverse hvq
    simpa using this
  · have := congrArg List.reverse hoq
    simpa using this
  · have := congrArg List.reverse haq
    simpa using this
  · have := congrArg List.reverse hcq
    simpa using this

theorem environ_updateMap_not_mem (m : String → String) (k v : String)
    (hk : k ∉ environWhitelist) :
    environ (updateMap m k v) = environ m := by
  unfold environ
  apply List.map_congr_left
  intro name hname
  have hne : name ≠ k := fun hh => hk (hh ▸ hname)
  simp [updateMap, hne]

theorem envEntryName_append (k v : String) (hkeq : '=' ∉ k.data) :
    envEntryName (k ++ "=" ++ v) = k := by
  have hdata : (k ++ "=" ++ v).data = k.data ++ '=' :: v.data := by
    rw [String.data_append, String.data_append]
    simp [List.append_assoc]
  unfold envEntryName
  rw [hdata, splitOnChar_append v.data hkeq]
  show String.mk k.data = k
  cases k
  rfl

/- ---------- concrete fixtures used by witnesses and counterexamples ---------- -/

def sampleBin : Binary := ⟨"example.com/tool", "v1.2.0", "linux", "amd64", "false"⟩

def sampleBinV3 : Binary := ⟨"example.com/tool", "v3.1.0", "linux", "amd64", "false"⟩

def sampleBinArm : Binary := ⟨"example.com/tool", "v1.2.0", "linux", "armv7", "false"⟩

def sampleStore : Local := ⟨"root", "production"⟩

/- Two distinct targets whose module paths collide after the slash-to-dash
   replacement of getKey. -/
def binDashed : Binary := ⟨"a-b", "v1.0.0", "linux", "amd64", "false"⟩

def binSlashed : Binary := ⟨"a/b", "v1.0.0", "linux", "amd64", "false"⟩

/- Walk fixtures: the workspace root directory, a non-executable library file,
   a fully executable binary, an owner-only executable file visited later, and
   a fully executable file visited last. -/
def entryRoot : WalkEntry :=
  ⟨"/h/.cache/gobinaries/example.com/tool", true, 0o755, [], false⟩

def entryLib : WalkEntry :=
  ⟨"/h/.cache/gobinaries/example.com/tool/pkg/lib.a", false, 0o644, [5], false⟩

def entryFull : WalkEntry :=
  ⟨"/h/.cache/gobinaries/example.com/tool/bin/early", false, 0o755, [1, 2], false⟩

def entryOwnerOnly : WalkEntry :=
  ⟨"/h/.cache/gobinaries/example.com/tool/bin/late", false, 0o700, [3], false⟩

def entryFull2 : WalkEntry :=
  ⟨"/h/.cache/gobinaries/example.com/tool/bin/last", false, 0o777, [9], false⟩

/- A build whose workspace holds no file with any execute bit. -/
def worldNoExec : WriteWorld :=
  ⟨false, "/h", false, [entryRoot, entryLib], false, false, false, false⟩

/- A build that finds a fully executable binary but fails while copying. -/
def worldCopyFail : WriteWorld :=
  ⟨false, "/h", false, [entryRoot, entryFull], false, true, false, false⟩

/- The same attempt with a working copy step. -/
def worldOkCopy : WriteWorld :=
  ⟨false, "/h", false, [entryRoot, entryFull], false, false, false, false⟩

/- A walk that meets a fully executable file first and an owner-only
   executable file last. -/
def worldLastNotExec : WriteWorld :=
  ⟨false, "/h", false, [entryRoot, entryFull, entryOwnerOnly], false, false, false, false⟩

/- A walk that meets two fully executable files; the later one wins. -/
def worldLastExec : WriteWorld :=
  ⟨false, "/h", false, [entryRoot, entryFull, entryFull2], false, false, false, false⟩

/- Two ambient environments that agree on every whitelisted variable and
   differ on a non-whitelisted one. -/
def envA : String → String :=
  fun k => if k = "SECRET_TOKEN" then "s1" else "val-" ++ k

def envB : String → String :=
  fun k => if k = "SECRET_TOKEN" then "s2" else "val-" ++ k


/-- Claim C1: the module argument of the toolchain install step never carries
the /v<major> suffix: for every target it is the bare
<module>/...@<version>, even when the resolved major version is at least 2
(here v3.1.0, major 3, where normalizeModuleDep — dead code never called from
Write or install — would produce the suffixed dependency). -/
theorem install_uses_bare_module_path :
    (∀ bin : Binary, installArgs bin
      = ["install", "-trimpath", "-ldflags", installLdflags bin,
         bin.Module ++ "/...@" ++ bin.Version])
    ∧ getMajorVersion "v3.1.0" = some 3
    ∧ normalizeModuleDep sampleBinV3 = "example.com/tool/v3@v3.1.0"
    ∧ installArgs sampleBinV3
      = ["install", "-trimpath", "-ldflags", "-s -w -X main.version=v3.1.0",
         "example.com/tool/...@v3.1.0"]
    ∧ ("example.com/tool/...@v3.1.0" : String) ≠ "example.com/tool/v3/...@v3.1.0" :=
  ⟨fun _ => rfl, by decide, by decide, by decide, by decide⟩

/-- Claim C7: for every store, filesystem, target and byte sequence, a Get
immediately after a completed Create returns exactly the created bytes. -/
theorem storage_roundtrip (l : Local) (fs : FS) (bin : Binary) (bytes : List UInt8) :
    localGet l (localCreate l fs bin bytes) bin = .found bytes := by
  simp [localGet, localCreate, fsLookup_fsInsert]

/-- Claim C2 counterexample: in the middle of a Create of the bytes [1, 2]
(after the first chunk [1] has been copied), the object is already visible at
its final key with the partial contents [1] — the write goes directly to the
final path, so a reader can observe a partially written object. -/
theorem create_midstate_partial_visible :
    createMidState sampleStore [] sampleBin [[1], [2]] 1
      ∈ createStates sampleStore [] sampleBin [[1], [2]]
    ∧ localGet sampleStore (createMidState sampleStore [] sampleBin [[1], [2]] 1) sampleBin
      = .found [1]
    ∧ (createStates sampleStore [] sampleBin [[1], [2]]).getLast?
      = some (localCreate sampleStore [] sampleBin [1, 2])
    ∧ GetResult.found [1] ≠ GetResult.found [1, 2] := by
  refine ⟨by decide, by decide, by decide, by decide⟩

/-- Claim C2 amended: Local.Create writes through the final object path with
no temporary location, so after i of the copy chunks every reader sees the
object with the partial contents of those i chunks; the state after the last
chunk coincides with the completed Create. -/
theorem create_states_expose_midstates (l : Local) (fs : FS) (bin : Binary)
    (chunks : List (List UInt8)) {i : Nat} (h : i ≤ chunks.length) :
    createMidState l fs bin chunks i ∈ createStates l fs bin chunks
    ∧ localGet l (createMidState l fs bin chunks i) bin = .found (chunks.take i).flatten
    ∧ createMidState l fs bin chunks chunks.length = localCreate l fs bin chunks.flatten := by
  refine ⟨createMidState_mem_createStates l fs bin chunks h, ?_, ?_⟩
  · simp [localGet, createMidState, fsLookup_fsInsert]
  · simp [createMidState, localCreate, List.take_length]

/-- Witness for create_states_expose_midstates at the store sampleStore, the
target sampleBin and the chunk list [[1], [2]] with i = 1. -/
theorem create_states_expose_midstates_witness :
    localGet sampleStore (createMidState sampleStore [] sampleBin [[1], [2]] 1) sampleBin
      = .found [1] :=
  ((create_states_expose_midstates sampleStore [] sampleBin [[1], [2]]
    (by decide)).2.1).trans (by decide)

/-- Claim C3 counterexample: a build whose workspace scan finds no file with
any execute permission bit leaves dst empty, so Write fails with the generic
"opening" error of os.Open(""), not with ErrNotExecutable (nothing is
streamed either way). -/
theorem no_exec_yields_opening_error :
    write worldNoExec sampleBin
      = ⟨.openingErr, [], false, writeDir "/h" sampleBin⟩
    ∧ WriteOutcome.openingErr ≠ WriteOutcome.notExecutable := by
  refine ⟨by decide, by decide⟩

/-- Claim C3 amended: when the walk does select a file and that file fails
the owner/group/other three-way executable check, Write fails with
ErrNotExecutable and streams nothing; when the scan finds no file with any
execute bit, Write fails with the generic opening error (not
ErrNotExecutable) and streams nothing. -/
theorem write_not_executable_cases (wld : WriteWorld) (bin : Binary)
    (h1 : wld.homeErr = false) (h2 : wld.installErr = false)
    (h3 : wld.statErr = false) :
    (∀ e, findEntry wld.entries (walkDst wld.entries "") = some e →
      isExecutable e.perm = false →
      write wld bin = ⟨.notExecutable, [], false, writeDir wld.homeDir bin⟩)
    ∧ ((∀ e ∈ wld.entries, e.path ≠ "") → walkDst wld.entries "" = "" →
      write wld bin = ⟨.openingErr, [], false, writeDir wld.homeDir bin⟩) := by
  constructor
  · intro e he hx
    simp [write, h1, h2, he, h3, hx]
  · intro hp hd
    have hfind : findEntry wld.entries "" = none := by
      rw [findEntry, List.find?_eq_none]
      intro e he
      simp [hp e he]
    simp [write, h1, h2, hd, hfind]

/-- Witness for write_not_executable_cases: the walk of worldLastNotExec
selects the owner-only executable file and Write returns ErrNotExecutable. -/
theorem write_not_executable_cases_witness :
    write worldLastNotExec sampleBin
      = ⟨.notExecutable, [], false, writeDir worldLastNotExec.homeDir sampleBin⟩ :=
  (write_not_executable_cases worldLastNotExec sampleBin rfl rfl rfl).1
    entryOwnerOnly (by decide) (by decide)

/-- Claim C4 counterexample: a copy failure makes Write return the "copying"
error without ever invoking os.RemoveAll on the workspace — the cleanup is
not reached on this failure path. -/
theorem copy_failure_leaves_workspace :
    write worldCopyFail sampleBin
      = ⟨.copyingErr, [], false, writeDir "/h" sampleBin⟩
    ∧ (write worldCopyFail sampleBin).removed = false := by
  refine ⟨by decide, by decide⟩

/-- Claim C4 amended: os.RemoveAll runs exactly when Write gets past a
successful close — on the success outcome and on the "cleaning" outcome where
RemoveAll itself fails; every earlier failure path, the copy failure
included, returns without removing the workspace. -/
theorem cleanup_only_after_close (wld : WriteWorld) (bin : Binary) :
    (write wld bin).removed = true ↔
      (write wld bin).outcome = .ok ∨ (write wld bin).outcome = .cleaningErr := by
  unfold write
  by_cases h1 : wld.homeErr
  · simp [h1]
  · by_cases h2 : wld.installErr
    · simp [h1, h2]
    · simp only [h1, h2]
      rcases findEntry wld.entries (walkDst wld.entries "") with _ | e
      · simp
      · by_cases h3 : wld.statErr <;> by_cases h4 : isExecutable e.perm <;>
          by_cases h5 : wld.copyErr <;> by_cases h6 : wld.closeErr <;>
          by_cases h7 : wld.removeErr <;> simp [h3, h4, h5, h6, h7]

/-- Claim C5 counterexample: two distinct build attempts (worldCopyFail and
worldOkCopy differ) for the same target use the same workspace directory, the
fixed path derived from the home directory and the module. -/
theorem same_target_same_workspace :
    worldCopyFail ≠ worldOkCopy
    ∧ (write worldCopyFail sampleBin).dir = (write worldOkCopy sampleBin).dir
    ∧ (write worldCopyFail sampleBin).dir = "/h/.cache/gobinaries/example.com/tool" := by
  refine ⟨by decide, by decide, by decide⟩

/-- Claim C5 amended: the workspace directory of a build attempt is the
deterministic value filepath.Join(home, ".cache", "gobinaries", module): any
two attempts that share the home directory and the target module share the
workspace directory. -/
theorem workspace_dir_deterministic (w1 w2 : WriteWorld) (b1 b2 : Binary)
    (hh : w1.homeDir = w2.homeDir) (hm : b1.Module = b2.Module) :
    (write w1 b1).dir = (write w2 b2).dir := by
  rw [write_dir_eq, write_dir_eq]
  show goJoinStr [w1.homeDir, ".cache", "gobinaries", b1.Module]
      = goJoinStr [w2.homeDir, ".cache", "gobinaries", b2.Module]
  rw [hh, hm]

/-- Witness for workspace_dir_deterministic: the two concrete attempts
worldCopyFail and worldOkCopy for sampleBin share their workspace. -/
theorem workspace_dir_deterministic_witness :
    (write worldCopyFail sampleBin).dir = (write worldOkCopy sampleBin).dir :=
  workspace_dir_deterministic worldCopyFail worldOkCopy sampleBin sampleBin rfl rfl

/-- Claim C8 counterexample: the distinct targets binDashed (module "a-b")
and binSlashed (module "a/b") share a storage key, so after a Create only for
binSlashed a Get for binDashed — for which no Create ever occurred — returns
the stored bytes instead of the not-found condition. -/
theorem get_found_without_create :
    binDashed ≠ binSlashed
    ∧ localGet sampleStore (createAll sampleStore [(binSlashed, [7])]) binDashed
      = .found [7] := by
  refine ⟨by decide, by decide⟩

/-- Claim C8 amended: Get returns the distinguished not-found condition
exactly when no object sits at the target's derived storage path; in
particular after any sequence of Creates none of which stored to that path,
Get returns not-found and never a generic error. -/
theorem get_notFound_iff_no_object (l : Local) (bin : Binary)
    (history : List (Binary × List UInt8))
    (h : ∀ p ∈ history, objectPath l p.1 ≠ objectPath l bin) :
    localGet l (createAll l history) bin = .notFound
    ∧ ∀ fs : FS, (localGet l fs bin = .notFound ↔ fsLookup fs (objectPath l bin) = none) := by
  constructor
  · unfold localGet
    rw [show fsLookup (createAll l history) (objectPath l bin) = none from
      lookup_createAll_none l bin history [] rfl h]
  · intro fs
    unfold localGet
    cases h' : fsLookup fs (objectPath l bin) <;> simp [h']

/-- Witness for get_notFound_iff_no_object: after one Create for a different
version of the same module, Get for sampleBin still reports not-found. -/
theorem get_notFound_iff_no_object_witness :
    localGet sampleStore (createAll sampleStore [(sampleBinV3, [9])]) sampleBin
      = .notFound :=
  (get_notFound_iff_no_object sampleStore sampleBin [(sampleBinV3, [9])] (by decide)).1

/-- Claim C10: with no walk errors, the dst selected by the scan of Write is
the path of the last-visited non-directory file having at least one execute
bit; concretely this makes Write return ErrNotExecutable for
worldLastNotExec although the earlier-visited entryFull is fully executable,
and for worldLastExec it streams the last file's bytes, not the earlier
file's. -/
theorem walk_selects_last_candidate (entries : List WalkEntry)
    (h : ∀ e ∈ entries, e.fail = false) :
    walkDst entries ""
      = (((entries.filter fun e => !e.isDir && hasExecBit e.perm).map WalkEntry.path).getLastD "")
    ∧ write worldLastNotExec sampleBin
      = ⟨.notExecutable, [], false, writeDir "/h" sampleBin⟩
    ∧ entryFull ∈ worldLastNotExec.entries ∧ isExecutable entryFull.perm = true
    ∧ write worldLastExec sampleBin
      = ⟨.ok, [9], true, writeDir "/h" sampleBin⟩ :=
  ⟨walkDst_eq_getLastD h "", by decide, by decide, by decide, by decide⟩

/-- Witness for walk_selects_last_candidate: on the concrete walk of
worldLastNotExec the selected dst is the owner-only executable file visited
last. -/
theorem walk_selects_last_candidate_witness :
    walkDst [entryRoot, entryFull, entryOwnerOnly] ""
      = "/h/.cache/gobinaries/example.com/tool/bin/late" :=
  ((walk_selects_last_candidate [entryRoot, entryFull, entryOwnerOnly]
    (by decide)).1).trans (by decide)

/-- Claim C6: the environment of the toolchain install subprocess is exactly
the whitelisted ambient variables PATH, HOME, PWD, GOPATH, GOLANG_VERSION and
TMPDIR followed by GOPATH set to the workspace directory, CGO_ENABLED, GOOS
and the architecture pair (GOARCH directly, or GOARCH=arm plus the GOARM
profile for an armv variant); the environment is invariant under any change
of a non-whitelisted ambient variable, both at the level of the environment
map and at the level of an os.Environ entry list. -/
theorem install_env_whitelist_exact (bin : Binary) (dir : String)
    (m1 m2 : String → String) :
    (installEnv bin dir m1
      = ["PATH=" ++ m1 "PATH", "HOME=" ++ m1 "HOME", "PWD=" ++ m1 "PWD",
         "GOPATH=" ++ m1 "GOPATH", "GOLANG_VERSION=" ++ m1 "GOLANG_VERSION",
         "TMPDIR=" ++ m1 "TMPDIR", "GOPATH=" ++ dir, "CGO_ENABLED=" ++ bin.CGO,
         "GOOS=" ++ bin.OS]
        ++ (if bin.Arch.startsWith "armv"
            then ["GOARCH=arm", "GOARM=" ++ trimPre bin.Arch "armv"]
            else ["GOARCH=" ++ bin.Arch]))
    ∧ ((∀ k ∈ environWhitelist, m1 k = m2 k) →
        installEnv bin dir m1 = installEnv bin dir m2)
    ∧ (∀ (vars : List String) (k v : String), k ∉ environWhitelist → '=' ∉ k.data →
        environ (initEnvironMap (vars ++ [k ++ "=" ++ v])) = environ (initEnvironMap vars)) := by
  refine ⟨?_, ?_, ?_⟩
  · by_cases h : bin.Arch.startsWith "armv" <;>
      simp [installEnv, environ, environWhitelist, h]
  · intro h
    have hP := h "PATH" (by simp [environWhitelist])
    have hH := h "HOME" (by simp [environWhitelist])
    have hW := h "PWD" (by simp [environWhitelist])
    have hG := h "GOPATH" (by simp [environWhitelist])
    have hV := h "GOLANG_VERSION" (by simp [environWhitelist])
    have hT := h "TMPDIR" (by simp [environWhitelist])
    simp [installEnv, environ, environWhitelist, hP, hH, hW, hG, hV, hT]
  · intro vars k v hk hkeq
    rw [initEnvironMap, List.foldl_append]
    simp only [List.foldl_cons, List.foldl_nil]
    rw [envEntryName_append k v hkeq]
    exact environ_updateMap_not_mem _ k _ hk

/-- Witness for install_env_whitelist_exact: the ambient maps envA and envB
differ only on the non-whitelisted SECRET_TOKEN, and the install environment
for the armv7 target is identical under the two. -/
theorem install_env_whitelist_exact_witness :
    installEnv sampleBinArm "/ws" envA = installEnv sampleBinArm "/ws" envB :=
  (install_env_whitelist_exact sampleBinArm "/ws" envA envB).2.1 (by
    intro k hk
    simp only [environWhitelist, List.mem_cons, List.not_mem_nil, or_false] at hk
    rcases hk with rfl | rfl | rfl | rfl | rfl | rfl <;> rfl)

/- Field conditions under which the storage key derivation is injective: the
   module path is non-empty, free of dashes and not a dot component; version,
   os, arch and cgo contain no slash; os, arch and cgo contain no dash (the
   version may carry dashes, e.g. a prerelease tag, because the file part is
   parsed from its right end). -/
def keySafe (b : Binary) : Prop :=
  b.Module.data ≠ [] ∧ '-' ∉ b.Module.data
  ∧ b.Module.data ≠ ['.'] ∧ b.Module.data ≠ ['.', '.']
  ∧ '/' ∉ b.Version.data
  ∧ '/' ∉ b.OS.data ∧ '-' ∉ b.OS.data
  ∧ '/' ∉ b.Arch.data ∧ '-' ∉ b.Arch.data
  ∧ '/' ∉ b.CGO.data ∧ '-' ∉ b.CGO.data

instance (b : Binary) : Decidable (keySafe b) := by
  unfold keySafe
  infer_instance

theorem getKeyChars_shape (l : Local) (b : Binary)
    (hpre : plainComp l.Pre.data) (hpres : '/' ∉ l.Pre.data) (hb : keySafe b) :
    getKeyChars l b
      = l.Pre.data ++ '/' :: (replaceSlash b.Module.data
          ++ '/' :: (b.Version.data ++ '-' :: (b.OS.data
            ++ '-' :: (b.Arch.data ++ '-' :: b.CGO.data)))) := by
  obtain ⟨hm0, hmd, hm1, hm2, hv, ho1, ho2, ha1, ha2, hc1, hc2⟩ := hb
  have hfile_ne : b.Version.data
      ++ '-' :: (b.OS.data ++ '-' :: (b.Arch.data ++ '-' :: b.CGO.data)) ≠ [] := by
    cases b.Version.data <;> simp
  have hdash_mem : '-' ∈ b.Version.data
      ++ '-' :: (b.OS.data ++ '-' :: (b.Arch.data ++ '-' :: b.CGO.data)) := by
    simp
  have hfile_plain : plainComp (b.Version.data
      ++ '-' :: (b.OS.data ++ '-' :: (b.Arch.data ++ '-' :: b.CGO.data))) := by
    refine ⟨hfile_ne, ?_, ?_⟩
    · intro hh
      rw [hh] at hdash_mem
      simp at hdash_mem
    · intro hh
      rw [hh] at hdash_mem
      simp at hdash_mem
  have hfile_slash : '/' ∉ b.Version.data
      ++ '-' :: (b.OS.data ++ '-' :: (b.Arch.data ++ '-' :: b.CGO.data)) := by
    simp [hv, ho1, ha1, hc1]
  have hmod_plain : plainComp (replaceSlash b.Module.data) :=
    replaceSlash_plain hm0 hm1 hm2
  have hmod_slash : '/' ∉ replaceSlash b.Module.data :=
    replaceSlash_not_mem_slash _
  have hdir_ne : l.Pre.data ++ '/' :: replaceSlash b.Module.data ≠ [] := by
    cases l.Pre.data <;> simp
  show goJoinChars [l.Pre.data ++ '/' :: replaceSlash b.Module.data,
      b.Version.data ++ '-' :: (b.OS.data ++ '-' :: (b.Arch.data ++ '-' :: b.CGO.data))] = _
  rw [goJoinChars_pair hdir_ne hfile_ne, List.append_assoc, List.cons_append,
    pathClean_three hpres hmod_slash hfile_slash hpre hmod_plain hfile_plain]

/-- Claim C9 counterexample: the key derivation is not injective — the
distinct targets binDashed (module "a-b") and binSlashed (module "a/b"),
equal in the other four fields, map to the same storage key. -/
theorem getKey_collision :
    binDashed ≠ binSlashed
    ∧ getKey sampleStore binDashed = getKey sampleStore binSlashed := by
  refine ⟨by decide, by decide⟩

/-- Claim C9 amended: for every target the key is
prefix/module-with-slashes-replaced/version-os-arch-cgo (deterministic, a
pure function of the prefix and the five fields), and the derivation is
injective on targets whose fields avoid the conflating characters (keySafe:
module free of dashes, os/arch/cgo free of dashes, no slashes outside the
module, no dot components). -/
theorem getKey_shape_and_injective (l : Local) (b1 b2 : Binary)
    (hpre : plainComp l.Pre.data) (hpres : '/' ∉ l.Pre.data)
    (h1 : keySafe b1) (h2 : keySafe b2) :
    getKeyChars l b1
      = l.Pre.data ++ '/' :: (replaceSlash b1.Module.data
          ++ '/' :: (b1.Version.data ++ '-' :: (b1.OS.data
            ++ '-' :: (b1.Arch.data ++ '-' :: b1.CGO.data))))
    ∧ (getKey l b1 = getKey l b2 → b1 = b2) := by
  refine ⟨getKeyChars_shape l b1 hpre hpres h1, ?_⟩
  intro he
  have hchars : getKeyChars l b1 = getKeyChars l b2 := congrArg String.data he
  rw [getKeyChars_shape l b1 hpre hpres h1, getKeyChars_shape l b2 hpre hpres h2]
    at hchars
  have htail := List.append_cancel_left hchars
  injection htail with _ hbody
  obtain ⟨hmod, hfile⟩ := append_sep_inj (replaceSlash_not_mem_slash b1.Module.data)
    (replaceSlash_not_mem_slash b2.Module.data) hbody
  have hModule : b1.Module = b2.Module :=
    String.ext (replaceSlash_inj h1.2.1 h2.2.1 hmod)
  obtain ⟨hv, ho, ha, hc⟩ := file_fields_inj h1.2.2.2.2.2.2.1 h1.2.2.2.2.2.2.2.2.1
    h1.2.2.2.2.2.2.2.2.2.2 h2.2.2.2.2.2.2.1 h2.2.2.2.2.2.2.2.2.1
    h2.2.2.2.2.2.2.2.2.2.2 hfile
  have hVersion : b1.Version = b2.Version := String.ext hv
  have hOS : b1.OS = b2.OS := String.ext ho
  have hArch : b1.Arch = b2.Arch := String.ext ha
  have hCGO : b1.CGO = b2.CGO := String.ext hc
  cases b1
  cases b2
  simp_all

/-- Witness for getKey_shape_and_injective at the concrete store and target:
the key of sampleBin comes out in the claimed shape. -/
theorem getKey_shape_and_injective_witness :
    getKeyChars sampleStore sampleBin
      = ("production/example.com-tool/v1.2.0-linux-amd64-false" : String).data :=
  ((getKey_shape_and_injective sampleStore sampleBin sampleBin (by decide) (by decide)
    (by decide) (by decide)).1).trans (by decide)
end Gobin
